import Mathlib

/-!
Verification of the core task-list logic of `app.js` (Colorful Modern Todo).

The JavaScript source keeps a module-level array `tasks` of `Task` objects
`{id, text, completed, order}` and mutates it in event handlers.  We embed each
operation as a pure function from the current collection (plus the inputs the
browser environment supplies: fresh ids from `crypto.randomUUID()`, clock
readings from `Date.now()`, drag payloads) to the new collection together with
the persistence and announcement effects the handler performs.
-/

namespace Todo

/-- `class Task` (app.js lines 22-29): `{id, text, completed, order}`.
JS numbers used as order keys are integer `Date.now()` readings plus small
offsets, modelled as `Int`. -/
structure Task where
  id : String
  text : String
  completed : Bool
  order : Int
deriving Repr, DecidableEq

/-- The observable outcome of one mutating event handler: the new in-memory
`tasks` array, whether `saveTasks()` was called, and the message passed to
`announce(...)` (none when the handler returned early). -/
structure OpResult where
  tasks : List Task
  saved : Bool
  announced : Option String
deriving Repr, DecidableEq

/-- JS `Array.prototype.findIndex` restricted to the uses in app.js: `none`
models the -1 result. -/
def findIndex (p : Task → Bool) : List Task → Option Nat
  | [] => none
  | t :: ts => if p t then some 0 else (findIndex p ts).map (· + 1)

/-- In-place mutation of the first array element matching `p` (JS
`tasks.find(...)` followed by assignment to the found object). -/
def updateFirst (p : Task → Bool) (f : Task → Task) : List Task → List Task
  | [] => []
  | t :: ts => if p t then f t :: ts else t :: updateFirst p f ts

/-- JS `arr.splice(n, 0, x)`: insert `x` at index `n` (appending when `n`
is past the end). -/
def spliceIn (n : Nat) (x : Task) : List Task → List Task
  | [] => [x]
  | a :: as =>
    match n with
    | 0 => x :: a :: as
    | m + 1 => a :: spliceIn m x as

/-- `tasks.forEach((t, i) => (t.order = now + i))` (app.js line 156): every
task's order key becomes the single clock reading `now` plus its index. -/
def assignOrders (now : Int) : List Task → List Task
  | [] => []
  | t :: ts => { t with order := now } :: assignOrders (now + 1) ts

/-- `addTask(text)` (app.js lines 173-183): early return on falsy (empty)
`text`; otherwise push `new Task(id, text)` — `completed` defaults to `false`,
`order` defaults to the `Date.now()` reading — then save and announce.
The fresh `crypto.randomUUID()` value and the clock reading are parameters. -/
def addTask (tasks : List Task) (text : String) (id : String) (now : Int) : OpResult :=
  if text = "" then ⟨tasks, false, none⟩
  else ⟨tasks ++ [⟨id, text, false, now⟩], true, some "Task added"⟩

/-- JS `String.prototype.trim`: drop leading and trailing whitespace
characters (restricted to the ASCII whitespace relevant here). -/
def jsTrim (s : String) : String :=
  ⟨(((s.data.dropWhile Char.isWhitespace).reverse.dropWhile Char.isWhitespace).reverse)⟩

/-- The form-submit handler (app.js lines 226-233): trims the raw input value
and calls `addTask` only when the trimmed text is non-empty.  This is the
user-facing add operation (the keydown handler at lines 291-298 is identical). -/
def submitAdd (tasks : List Task) (value : String) (id : String) (now : Int) : OpResult :=
  let text := jsTrim value
  if text = "" then ⟨tasks, false, none⟩ else addTask tasks text id now

/-- `editTask(id, newText)` (app.js lines 185-192): find the task by id;
return silently when absent, else overwrite its `text`, save, announce. -/
def editTask (tasks : List Task) (id newText : String) : OpResult :=
  match tasks.find? (fun t => t.id == id) with
  | none => ⟨tasks, false, none⟩
  | some _ =>
    ⟨updateFirst (fun t => t.id == id) (fun t => { t with text := newText }) tasks,
      true, some "Task edited"⟩

/-- `deleteTask(id)` (app.js lines 194-201): findIndex; return silently on -1,
else `splice(index, 1)`, save, announce. -/
def deleteTask (tasks : List Task) (id : String) : OpResult :=
  match findIndex (fun t => t.id == id) tasks with
  | none => ⟨tasks, false, none⟩
  | some index => ⟨tasks.eraseIdx index, true, some "Task deleted"⟩

/-- `toggleComplete(id)` (app.js lines 203-210): find by id; return silently
when absent, else flip `completed`, save, and announce according to the new
value of the flag. -/
def toggleComplete (tasks : List Task) (id : String) : OpResult :=
  match tasks.find? (fun t => t.id == id) with
  | none => ⟨tasks, false, none⟩
  | some task =>
    ⟨updateFirst (fun t => t.id == id) (fun t => { t with completed := !t.completed }) tasks,
      true, some (if !task.completed then "Task completed" else "Task marked as active")⟩

/-- `clearCompleted()` (app.js lines 212-220): keep the non-completed tasks;
save and announce only when the length changed. -/
def clearCompleted (tasks : List Task) : OpResult :=
  let remaining := tasks.filter (fun t => !t.completed)
  if remaining.length ≠ tasks.length then ⟨remaining, true, some "Completed tasks cleared"⟩
  else ⟨remaining, false, none⟩

/-- `onDrop(e)` (app.js lines 137-160).  Inputs from the drag event: the
transfer payload `draggedId` (falsy, i.e. empty, when no payload was set), the
drop target's `data-id`, and the `Date.now()` reading used for re-keying.
Early returns: missing payload, self-drop, unresolved ids.  Otherwise the
dragged task is spliced out, re-inserted at `targetIndex - 1` when it was
dragged forward and at `targetIndex` otherwise, and every task is re-keyed
to `now + position`. -/
def onDrop (tasks : List Task) (draggedId targetId : String) (now : Int) : OpResult :=
  if draggedId = "" ∨ draggedId = targetId then ⟨tasks, false, none⟩
  else
    match findIndex (fun t => t.id == draggedId) tasks,
        findIndex (fun t => t.id == targetId) tasks with
    | some draggedIndex, some targetIndex =>
      match tasks[draggedIndex]? with
      | some draggedTask =>
        let rest := tasks.eraseIdx draggedIndex
        let insertAt := if draggedIndex < targetIndex then targetIndex - 1 else targetIndex
        ⟨assignOrders now (spliceIn insertAt draggedTask rest), true, some "Task reordered"⟩
      | none => ⟨tasks, false, none⟩
    | _, _ => ⟨tasks, false, none⟩

/-- The three filter states (app.js line 16). -/
inductive Filter where
  | all
  | active
  | completed
deriving Repr, DecidableEq

/-- The filter predicate inside `renderTasks` (app.js lines 81-86). -/
def filterPred : Filter → Task → Bool
  | .all, _ => true
  | .active, t => !t.completed
  | .completed, t => t.completed

/-- `[...tasks].sort((a, b) => a.order - b.order)` (app.js line 79): a stable
ascending sort by the order key (ES2019 requires `Array.prototype.sort` to be
stable; `insertionSort` is stable for this total relation). -/
def sortByOrder (tasks : List Task) : List Task :=
  tasks.insertionSort (fun a b => a.order ≤ b.order)

/-- The pure projection computed by `renderTasks` (app.js lines 77-105):
sort by order, then filter by the current filter state. -/
def project (tasks : List Task) (f : Filter) : List Task :=
  (sortByOrder tasks).filter (filterPred f)

/-!
Persistence round-trip (`saveTasks` / `loadTasks`, app.js lines 36-53).

`saveTasks` writes `JSON.stringify(tasks)` under one storage key and
`loadTasks` reads it back with `JSON.parse`, so the snapshot travels as a JSON
value; we model it at the JSON-value level (`JSON.parse` of a `JSON.stringify`
output denotes the same value).  `loadTasks` does not validate the parsed
value: it runs `parsed.map(t => new Task(t.id, t.text, t.completed, t.order))`
inside the `try`, so the dynamic semantics of `.map`, of property access, and
of the constructor's default parameters (`completed = false`,
`order = Date.now()` fire on `undefined` arguments) matter and are modelled
explicitly.
-/

/-- A JavaScript value as far as `loadTasks` can observe one: `undefined`,
plus the JSON value forms (`JSON.parse` itself never yields `undefined`). -/
inductive JsVal where
  | undefined
  | null
  | bool (b : Bool)
  | num (n : Int)
  | str (s : String)
  | arr (elems : List JsVal)
  | obj (fields : List (String × JsVal))
deriving Repr

/-- JS property read `v[k]`: throws a `TypeError` on `null`/`undefined`,
looks the key up on objects (missing key gives `undefined`), and gives
`undefined` on the other primitives and on arrays for the keys `loadTasks`
uses (`id`, `text`, `completed`, `order` are properties of none of them). -/
def getProp (v : JsVal) (k : String) : Except Unit JsVal :=
  match v with
  | .undefined => .error ()
  | .null => .error ()
  | .obj fields =>
    .ok (match fields.lookup k with
      | some x => x
      | none => .undefined)
  | _ => .ok .undefined

/-- A `Task` as the constructor call in `loadTasks` builds it from untrusted
parsed data: each field holds the dynamic value of the constructor argument
after the default parameters have been applied. -/
structure JsTask where
  id : JsVal
  text : JsVal
  completed : JsVal
  order : JsVal
deriving Repr

/-- One step of the `parsed.map` callback:
`new Task(t.id, t.text, t.completed, t.order)`; any throwing property read
aborts the whole `map`.  The `Task` constructor's default parameters
(app.js line 23: `completed = false`, `order = Date.now()`) fire exactly when
the corresponding argument is `undefined`; `now` is the `Date.now()` reading
such a default takes (the readings during one synchronous `map` are modelled
as a single value). -/
def jsTaskOf (now : Int) (t : JsVal) : Except Unit JsTask :=
  match getProp t "id", getProp t "text", getProp t "completed", getProp t "order" with
  | .ok i, .ok x, .ok c, .ok o =>
    .ok ⟨i, x,
      (match c with
        | .undefined => .bool false
        | _ => c),
      (match o with
        | .undefined => .num now
        | _ => o)⟩
  | _, _, _, _ => .error ()

/-- The `parsed.map(...)` body element by element. -/
def jsTasksOf (now : Int) : List JsVal → Except Unit (List JsTask)
  | [] => .ok []
  | t :: ts =>
    match jsTaskOf now t, jsTasksOf now ts with
    | .ok a, .ok as => .ok (a :: as)
    | _, _ => .error ()

/-- `parsed.map(t => new Task(...))` (app.js line 41): calling `.map` on a
non-array JSON value throws a `TypeError` (numbers, strings, booleans and
`null` have no such method; plain objects' `.map` is `undefined`). -/
def tasksFromJson (now : Int) (parsed : JsVal) : Except Unit (List JsTask) :=
  match parsed with
  | .arr elems => jsTasksOf now elems
  | _ => .error ()

/-- `loadTasks()` (app.js lines 36-49).  `now` is the clock reading the
`Task` constructor's `order` default takes; the other input models what the
storage and `JSON.parse` supplied: `none` when `localStorage.getItem` gave a
falsy value (missing key or empty string), `some (.error ())` when
`JSON.parse` threw, `some (.ok v)` when it parsed to `v`.  Any exception
inside the `try` is caught and yields the empty collection. -/
def loadTasks (now : Int) (stored : Option (Except Unit JsVal)) : List JsTask :=
  match stored with
  | none => []
  | some (.error _) => []
  | some (.ok parsed) =>
    match tasksFromJson now parsed with
    | .ok ts => ts
    | .error _ => []

/-- `JSON.stringify` of one in-memory `Task` object: its four own fields in
declaration order. -/
def taskToJson (t : Task) : JsVal :=
  .obj [("id", .str t.id), ("text", .str t.text),
    ("completed", .bool t.completed), ("order", .num t.order)]

/-- `saveTasks()` (app.js lines 51-53): the snapshot value
`JSON.stringify(tasks)` writes, at the JSON-value level. -/
def saveTasksJson (tasks : List Task) : JsVal :=
  .arr (tasks.map taskToJson)

/-- The dynamic image of a well-typed task: what `loadTasks` rebuilds from a
snapshot that `saveTasks` wrote. -/
def taskToJsTask (t : Task) : JsTask :=
  ⟨.str t.id, .str t.text, .bool t.completed, .num t.order⟩

/-- The identity-relevant fields of a task — everything except the order
key. -/
def stripOrder (t : Task) : String × String × Bool :=
  (t.id, t.text, t.completed)

/-- Each mutating handler runs `mutate; saveTasks(); renderTasks();
announce(msg)` in that textual order, and `saveTasks` has no try/catch: when
`localStorage.setItem` throws (e.g. quota exceeded) the in-memory mutation has
already happened, while the persistence write, the re-render and the
announcement do not take effect.  `saveOk` is the outcome of the write. -/
def withSaveOutcome (r : OpResult) (saveOk : Bool) : OpResult :=
  { r with
    saved := r.saved && saveOk
    announced := if r.saved && saveOk then r.announced else none }

/-! ### Helper lemmas about the embedded list operations -/

theorem findIndex_eq_none (p : Task → Bool) (l : List Task)
    (h : ∀ t ∈ l, p t = false) : findIndex p l = none := by
  induction l with
  | nil => rfl
  | cons t ts ih =>
    simp only [findIndex, h t (List.mem_cons_self t ts)]
    simp [ih fun x hx => h x (List.mem_cons_of_mem t hx)]

theorem findIndex_lt_length {p : Task → Bool} :
    ∀ {l : List Task} {i : Nat}, findIndex p l = some i → i < l.length := by
  intro l
  induction l with
  | nil => intro i h; simp [findIndex] at h
  | cons t ts ih =>
    intro i h
    by_cases hp : p t
    · simp [findIndex, hp] at h
      simp [← h]
    · simp [findIndex, hp] at h
      obtain ⟨j, hj, rfl⟩ := h
      have := ih hj
      simp
      omega

theorem spliceIn_perm (n : Nat) (x : Task) :
    ∀ (l : List Task), (spliceIn n x l).Perm (x :: l) := by
  induction n with
  | zero =>
    intro l
    cases l <;> simp [spliceIn]
  | succ m ih =>
    intro l
    cases l with
    | nil => simp [spliceIn]
    | cons a as =>
      show (a :: spliceIn m x as).Perm (x :: a :: as)
      exact ((ih as).cons a).trans (List.Perm.swap x a as)

theorem get_cons_eraseIdx_perm :
    ∀ (l : List Task) (i : Nat) (hi : i < l.length),
      (l.get ⟨i, hi⟩ :: l.eraseIdx i).Perm l := by
  intro l
  induction l with
  | nil => intro i hi; simp at hi
  | cons a as ih =>
    intro i hi
    cases i with
    | zero => simp [List.eraseIdx]
    | succ j =>
      have hj : j < as.length := by simpa using hi
      show (as.get ⟨j, hj⟩ :: a :: as.eraseIdx j).Perm (a :: as)
      exact (List.Perm.swap a (as.get ⟨j, hj⟩) (as.eraseIdx j)).trans ((ih j hj).cons a)

theorem length_assignOrders (now : Int) (l : List Task) :
    (assignOrders now l).length = l.length := by
  induction l generalizing now with
  | nil => rfl
  | cons t ts ih => simp [assignOrders, ih]

theorem assignOrders_getElem? (l : List Task) (now : Int) (i : Nat) :
    (assignOrders now l)[i]? = l[i]?.map (fun t => { t with order := now + i }) := by
  induction l generalizing now i with
  | nil => simp [assignOrders]
  | cons t ts ih =>
    cases i with
    | zero => simp [assignOrders]
    | succ j =>
      simp only [assignOrders, List.getElem?_cons_succ, ih (now + 1) j]
      cases hts : ts[j]? with
      | none => simp
      | some t =>
        cases t
        simp only [Option.map_some', Option.some.injEq, Task.mk.injEq, true_and]
        push_cast
        ring

theorem mem_assignOrders_le (now : Int) (l : List Task) :
    ∀ t ∈ assignOrders now l, now ≤ t.order := by
  induction l generalizing now with
  | nil => simp [assignOrders]
  | cons a as ih =>
    intro t ht
    simp only [assignOrders, List.mem_cons] at ht
    rcases ht with rfl | ht
    · simp
    · have := ih (now + 1) t ht
      omega

theorem assignOrders_pairwise (now : Int) (l : List Task) :
    (assignOrders now l).Pairwise (fun a b => a.order < b.order) := by
  induction l generalizing now with
  | nil => simp [assignOrders]
  | cons a as ih =>
    simp only [assignOrders, List.pairwise_cons]
    refine ⟨fun b hb => ?_, ih (now + 1)⟩
    have := mem_assignOrders_le (now + 1) as b hb
    show now < b.order
    omega

theorem assignOrders_map_stripOrder (now : Int) (l : List Task) :
    (assignOrders now l).map stripOrder = l.map stripOrder := by
  induction l generalizing now with
  | nil => rfl
  | cons a as ih => simp [assignOrders, stripOrder, ih]

theorem assignOrders_map_id (now : Int) (l : List Task) :
    (assignOrders now l).map Task.id = l.map Task.id := by
  induction l generalizing now with
  | nil => rfl
  | cons a as ih => simp [assignOrders, ih]

theorem sortByOrder_perm (l : List Task) : (sortByOrder l).Perm l :=
  List.perm_insertionSort _ l

theorem sortByOrder_sorted_eq {l : List Task}
    (h : l.Pairwise (fun a b => a.order < b.order)) : sortByOrder l = l :=
  List.Sorted.insertionSort_eq (h.imp fun hab => le_of_lt hab)

theorem orderedInsert_append_last (a n : Task) (h : a.order ≤ n.order) :
    ∀ (s : List Task),
      (s ++ [n]).orderedInsert (fun x y => x.order ≤ y.order) a
        = s.orderedInsert (fun x y => x.order ≤ y.order) a ++ [n] := by
  intro s
  induction s with
  | nil => simp [List.orderedInsert, h]
  | cons b s ih =>
    simp only [List.cons_append, List.orderedInsert]
    by_cases hab : a.order ≤ b.order
    · simp [hab]
    · simp [hab, ih]

theorem sortByOrder_append_last :
    ∀ (l : List Task) (n : Task), (∀ t ∈ l, t.order ≤ n.order) →
      sortByOrder (l ++ [n]) = sortByOrder l ++ [n] := by
  intro l
  induction l with
  | nil => intro n _; simp [sortByOrder, List.insertionSort]
  | cons a l ih =>
    intro n h
    simp only [sortByOrder, List.cons_append, List.insertionSort, List.append_eq]
    have ih' := ih n fun t ht => h t (List.mem_cons_of_mem a ht)
    simp only [sortByOrder] at ih'
    rw [ih', orderedInsert_append_last a n (h a (List.mem_cons_self a l))]

theorem project_all_eq_sortByOrder (l : List Task) :
    project l .all = sortByOrder l := by
  simp [project, filterPred]

theorem mem_project (l : List Task) (f : Filter) (t : Task) :
    t ∈ project l f ↔ t ∈ l ∧ filterPred f t = true := by
  rw [project, List.mem_filter, (sortByOrder_perm l).mem_iff]

-- Quick sanity checks of evaluation.
example : sortByOrder [⟨"b", "b", false, 2⟩, ⟨"a", "a", false, 1⟩]
    = [⟨"a", "a", false, 1⟩, ⟨"b", "b", false, 2⟩] := by decide

example :
    loadTasks 0 (some (.ok (saveTasksJson [⟨"a", "x", true, 4⟩])))
      = [⟨.str "a", .str "x", .bool true, .num 4⟩] := rfl

example : loadTasks 1000 (some (.ok (.arr [.num 1, .num 2])))
    = [⟨.undefined, .undefined, .bool false, .num 1000⟩,
      ⟨.undefined, .undefined, .bool false, .num 1000⟩] := rfl

example : loadTasks 0 (some (.ok (.arr [.num 1, .null]))) = [] := rfl

example :
    (onDrop [⟨"A", "A", false, 1⟩, ⟨"B", "B", false, 2⟩, ⟨"C", "C", false, 3⟩]
        "A" "C" 100).tasks.map Task.id = ["B", "A", "C"] := by decide

example :
    (onDrop [⟨"A", "A", false, 1⟩, ⟨"B", "B", false, 2⟩, ⟨"C", "C", false, 3⟩]
        "C" "A" 100).tasks.map Task.id = ["C", "A", "B"] := by decide

example (l : List Task) : (l.insertionSort (fun a b => a.order ≤ b.order)).Perm l :=
  List.perm_insertionSort _ l

example (l : List Task) (h : l.Sorted (fun a b => a.order ≤ b.order)) :
    l.insertionSort (fun a b => a.order ≤ b.order) = l :=
  h.insertionSort_eq

/-! ### The claims -/

/-- Claim C1, counterexample.  With the stored sequence
`[A(order=1), B(order=2), C(order=3)]`, dropping `A` onto `C` does NOT yield
`[B, C, A]`: the code computes `insertAt = targetIndex - 1 = 1` and re-inserts
`A` into `[B, C]` at index 1, giving `[B, A, C]` (the dragged task lands
immediately before the target), so the claimed scenario is false. -/
theorem reorder_forward_scenario_cex :
    ¬ ((onDrop [⟨"A", "alpha", false, 1⟩, ⟨"B", "beta", false, 2⟩, ⟨"C", "gamma", false, 3⟩]
          "A" "C" 100).tasks.map Task.id = ["B", "C", "A"] ∧
        (onDrop [⟨"A", "alpha", false, 1⟩, ⟨"B", "beta", false, 2⟩, ⟨"C", "gamma", false, 3⟩]
          "C" "A" 100).tasks.map Task.id = ["C", "A", "B"]) := by
  decide

/-- Claim C1, amended.  For the collection `[A(order=1), B(order=2),
C(order=3)]` stored in that sequence, dropping drag source `A` onto target `C`
(a forward move) yields the sequence `[B, A, C]` — the dragged task is
re-inserted immediately before the target — and dropping `C` onto `A` (a
backward move) yields `[C, A, B]`, as the original claim stated. -/
theorem reorder_scenario_amended :
    (onDrop [⟨"A", "alpha", false, 1⟩, ⟨"B", "beta", false, 2⟩, ⟨"C", "gamma", false, 3⟩]
        "A" "C" 100).tasks.map Task.id = ["B", "A", "C"] ∧
    (onDrop [⟨"A", "alpha", false, 1⟩, ⟨"B", "beta", false, 2⟩, ⟨"C", "gamma", false, 3⟩]
        "C" "A" 100).tasks.map Task.id = ["C", "A", "B"] := by
  decide

/-- Claim C4.  For every collection and every id not present in it,
`editTask`, `deleteTask` and `toggleComplete` leave the collection unchanged,
call no save, and emit no announcement: each returns exactly
`⟨tasks, false, none⟩`. -/
theorem missing_id_noop (tasks : List Task) (id newText : String)
    (h : ∀ t ∈ tasks, t.id ≠ id) :
    editTask tasks id newText = ⟨tasks, false, none⟩ ∧
    deleteTask tasks id = ⟨tasks, false, none⟩ ∧
    toggleComplete tasks id = ⟨tasks, false, none⟩ := by
  have hfind : tasks.find? (fun t => t.id == id) = none := by
    rw [List.find?_eq_none]
    intro t ht
    simpa using h t ht
  have hidx : findIndex (fun t => t.id == id) tasks = none :=
    findIndex_eq_none _ _ fun t ht => by simpa using h t ht
  exact ⟨by simp [editTask, hfind], by simp [deleteTask, hidx],
    by simp [toggleComplete, hfind]⟩

/-- Witness for C4 at a concrete input: one task with id `"a"`, operations
aimed at the absent id `"zz"`. -/
theorem missing_id_noop_w :
    editTask [⟨"a", "x", false, 1⟩] "zz" "new" = ⟨[⟨"a", "x", false, 1⟩], false, none⟩ ∧
    deleteTask [⟨"a", "x", false, 1⟩] "zz" = ⟨[⟨"a", "x", false, 1⟩], false, none⟩ ∧
    toggleComplete [⟨"a", "x", false, 1⟩] "zz" = ⟨[⟨"a", "x", false, 1⟩], false, none⟩ :=
  missing_id_noop [⟨"a", "x", false, 1⟩] "zz" "new" (by decide)

/-- Claim C5.  `clearCompleted` keeps exactly the non-completed tasks; it
saves iff some completed task was present, announces iff it saves, and a
second call in a row never saves nor announces. -/
theorem clearCompleted_spec (tasks : List Task) :
    (clearCompleted tasks).tasks = tasks.filter (fun t => !t.completed) ∧
    ((clearCompleted tasks).saved = true ↔ ∃ t ∈ tasks, t.completed = true) ∧
    (clearCompleted tasks).announced.isSome = (clearCompleted tasks).saved ∧
    (clearCompleted (clearCompleted tasks).tasks).saved = false ∧
    (clearCompleted (clearCompleted tasks).tasks).announced = none := by
  have htasks : (clearCompleted tasks).tasks = tasks.filter (fun t => !t.completed) := by
    simp only [clearCompleted]
    split <;> rfl
  have hidem : (tasks.filter (fun t => !t.completed)).filter (fun t => !t.completed)
      = tasks.filter (fun t => !t.completed) := by
    rw [List.filter_filter]
    simp [Bool.and_self]
  have hsecond : clearCompleted (tasks.filter (fun t => !t.completed))
      = ⟨tasks.filter (fun t => !t.completed), false, none⟩ := by
    simp [clearCompleted, hidem]
  refine ⟨htasks, ?_, ?_, ?_, ?_⟩
  · constructor
    · intro hs
      by_contra hex
      push_neg at hex
      have hall : tasks.filter (fun t => !t.completed) = tasks :=
        List.filter_eq_self.mpr fun t ht => by simpa using hex t ht
      simp [clearCompleted, hall] at hs
    · intro ⟨t, ht, hc⟩
      have hlt : (tasks.filter (fun t => !t.completed)).length < tasks.length :=
        List.length_filter_lt_length_iff_exists.mpr ⟨t, ht, by simp [hc]⟩
      have hne : (tasks.filter (fun t => !t.completed)).length ≠ tasks.length := by omega
      simp only [clearCompleted]
      rw [if_pos hne]
  · simp only [clearCompleted]
    split <;> rfl
  · rw [htasks, hsecond]
  · rw [htasks, hsecond]

/-- Witness for C5 at a concrete collection with one completed and one active
task: the completed one is removed, the first call saves, the second call
neither saves nor announces. -/
theorem clearCompleted_spec_w :
    (clearCompleted [⟨"a", "x", true, 1⟩, ⟨"b", "y", false, 2⟩]).tasks
      = [⟨"b", "y", false, 2⟩] ∧
    (clearCompleted [⟨"a", "x", true, 1⟩, ⟨"b", "y", false, 2⟩]).saved = true ∧
    (clearCompleted (clearCompleted [⟨"a", "x", true, 1⟩,
      ⟨"b", "y", false, 2⟩]).tasks).saved = false ∧
    (clearCompleted (clearCompleted [⟨"a", "x", true, 1⟩,
      ⟨"b", "y", false, 2⟩]).tasks).announced = none := by
  have h := clearCompleted_spec [⟨"a", "x", true, 1⟩, ⟨"b", "y", false, 2⟩]
  exact ⟨h.1.trans (by decide), h.2.1.mpr ⟨⟨"a", "x", true, 1⟩, by simp, rfl⟩,
    h.2.2.2.1, h.2.2.2.2⟩

/-- Claim C7.  Every mutating operation computes its new in-memory collection
before calling `saveTasks`, so when the persistence write throws the in-memory
collection equals what it would be after a successful write (the announcement
and the re-render are what the thrown exception skips, not the mutation). -/
theorem save_failure_preserves_memory (tasks : List Task)
    (text id newText draggedId targetId : String) (now : Int) (saveOk : Bool) :
    (withSaveOutcome (addTask tasks text id now) saveOk).tasks
      = (withSaveOutcome (addTask tasks text id now) true).tasks ∧
    (withSaveOutcome (submitAdd tasks text id now) saveOk).tasks
      = (withSaveOutcome (submitAdd tasks text id now) true).tasks ∧
    (withSaveOutcome (editTask tasks id newText) saveOk).tasks
      = (withSaveOutcome (editTask tasks id newText) true).tasks ∧
    (withSaveOutcome (deleteTask tasks id) saveOk).tasks
      = (withSaveOutcome (deleteTask tasks id) true).tasks ∧
    (withSaveOutcome (toggleComplete tasks id) saveOk).tasks
      = (withSaveOutcome (toggleComplete tasks id) true).tasks ∧
    (withSaveOutcome (clearCompleted tasks) saveOk).tasks
      = (withSaveOutcome (clearCompleted tasks) true).tasks ∧
    (withSaveOutcome (onDrop tasks draggedId targetId now) saveOk).tasks
      = (withSaveOutcome (onDrop tasks draggedId targetId now) true).tasks :=
  ⟨rfl, rfl, rfl, rfl, rfl, rfl, rfl⟩

/-- Claim C9.  `project tasks all` carries exactly the ids of `tasks`, and the
`active` / `completed` projections partition the tasks by the `completed`
flag: membership in each equals membership in `tasks` together with the
corresponding flag value. -/
theorem project_filter_spec (tasks : List Task) (t : Task) (i : String) :
    (i ∈ (project tasks .all).map Task.id ↔ i ∈ tasks.map Task.id) ∧
    (t ∈ project tasks .active ↔ t ∈ tasks ∧ t.completed = false) ∧
    (t ∈ project tasks .completed ↔ t ∈ tasks ∧ t.completed = true) := by
  refine ⟨?_, ?_, ?_⟩
  · rw [project_all_eq_sortByOrder]
    exact ((sortByOrder_perm tasks).map Task.id).mem_iff
  · rw [mem_project]
    simp [filterPred]
  · rw [mem_project]
    simp [filterPred]

/-- Claim C2.  Through the submit handler, adding with a value that trims to
empty is a complete no-op; otherwise the created task carries the trimmed
text, `completed = false`, the supplied fresh id (still unique afterwards),
and is appended so that it is last under the `all` projection. -/
theorem add_spec (tasks : List Task) (value id : String) (now : Int)
    (hfresh : id ∉ tasks.map Task.id)
    (horder : ∀ t ∈ tasks, t.order ≤ now) :
    (jsTrim value = "" → submitAdd tasks value id now = ⟨tasks, false, none⟩) ∧
    (jsTrim value ≠ "" →
      (submitAdd tasks value id now).tasks = tasks ++ [⟨id, jsTrim value, false, now⟩] ∧
      (submitAdd tasks value id now).saved = true ∧
      (submitAdd tasks value id now).announced = some "Task added" ∧
      ((submitAdd tasks value id now).tasks.map Task.id).count id = 1 ∧
      project (submitAdd tasks value id now).tasks .all
        = project tasks .all ++ [⟨id, jsTrim value, false, now⟩]) := by
  constructor
  · intro h
    simp [submitAdd, h]
  · intro h
    have hs : submitAdd tasks value id now
        = ⟨tasks ++ [⟨id, jsTrim value, false, now⟩], true, some "Task added"⟩ := by
      simp [submitAdd, addTask, h]
    have h0 : (tasks.map Task.id).count id = 0 := List.count_eq_zero.mpr hfresh
    refine ⟨by rw [hs], by rw [hs], by rw [hs], ?_, ?_⟩
    · rw [hs]
      dsimp only
      simp [List.count_append, h0]
    · rw [hs]
      dsimp only
      rw [project_all_eq_sortByOrder, project_all_eq_sortByOrder,
        sortByOrder_append_last tasks _ fun t ht => horder t ht]

/-- Witness for C2: one existing task of order 5, value `"  buy milk  "`,
fresh id `"b"`, clock reading 9. -/
theorem add_spec_w :
    jsTrim "  buy milk  " = "buy milk" ∧
    (submitAdd [⟨"a", "x", true, 5⟩] "  buy milk  " "b" 9).tasks
      = [⟨"a", "x", true, 5⟩, ⟨"b", "buy milk", false, 9⟩] ∧
    (submitAdd [⟨"a", "x", true, 5⟩] "  buy milk  " "b" 9).announced = some "Task added" ∧
    project (submitAdd [⟨"a", "x", true, 5⟩] "  buy milk  " "b" 9).tasks .all
      = project [⟨"a", "x", true, 5⟩] .all ++ [⟨"b", "buy milk", false, 9⟩] := by
  have h := (add_spec [⟨"a", "x", true, 5⟩] "  buy milk  " "b" 9 (by decide)
      (by decide)).2 (by decide)
  refine ⟨by decide, ?_, h.2.2.1, ?_⟩
  · rw [h.1]
    decide
  · rw [h.2.2.2.2]
    decide

/-- A successful drop in full: with non-empty payload, distinct ids and both
indices resolved, `onDrop` splices the dragged task out, re-inserts it at
`targetIndex - 1` on a forward move and at `targetIndex` on a backward move,
and re-keys every task from the clock reading. -/
theorem onDrop_eq (tasks : List Task) (draggedId targetId : String) (now : Int)
    (hne : draggedId ≠ "") (hneq : draggedId ≠ targetId)
    {di ti : Nat}
    (hdi : findIndex (fun t => t.id == draggedId) tasks = some di)
    (hti : findIndex (fun t => t.id == targetId) tasks = some ti)
    (hlt : di < tasks.length) :
    onDrop tasks draggedId targetId now
      = ⟨assignOrders now (spliceIn (if di < ti then ti - 1 else ti)
          (tasks.get ⟨di, hlt⟩) (tasks.eraseIdx di)), true, some "Task reordered"⟩ := by
  have hcond : ¬(draggedId = "" ∨ draggedId = targetId) := by
    rintro (h | h)
    · exact hne h
    · exact hneq h
  simp only [onDrop, hdi, hti, if_neg hcond, List.getElem?_eq_getElem hlt]
  rfl

/-- `(assignOrders now l)[i] = now + i` in `Option` form. -/
theorem assignOrders_order_at (now : Int) (l : List Task) (i : Nat) (t : Task)
    (h : (assignOrders now l)[i]? = some t) : t.order = now + i := by
  rw [assignOrders_getElem?] at h
  cases hl : l[i]? with
  | none => rw [hl] at h; simp at h
  | some u =>
    rw [hl] at h
    simp only [Option.map_some', Option.some.injEq] at h
    rw [← h]

/-- Claim C6.  After a successful reorder every task's order key equals the
single clock reading `now` plus its position, the keys are strictly
increasing along the stored sequence, and sorting by order reproduces the
post-drop sequence exactly. -/
theorem reorder_fresh_orders (tasks : List Task) (draggedId targetId : String) (now : Int)
    (hne : draggedId ≠ "") (hneq : draggedId ≠ targetId)
    (hd : ∃ di, findIndex (fun t => t.id == draggedId) tasks = some di)
    (ht : ∃ ti, findIndex (fun t => t.id == targetId) tasks = some ti) :
    (onDrop tasks draggedId targetId now).saved = true ∧
    (∀ (i : Nat) (t : Task),
      (onDrop tasks draggedId targetId now).tasks[i]? = some t → t.order = now + i) ∧
    (onDrop tasks draggedId targetId now).tasks.Pairwise (fun a b => a.order < b.order) ∧
    sortByOrder (onDrop tasks draggedId targetId now).tasks
      = (onDrop tasks draggedId targetId now).tasks := by
  obtain ⟨di, hdi⟩ := hd
  obtain ⟨ti, hti⟩ := ht
  have hlt := findIndex_lt_length hdi
  rw [onDrop_eq tasks draggedId targetId now hne hneq hdi hti hlt]
  dsimp only
  exact ⟨rfl, fun i t hit => assignOrders_order_at now _ i t hit,
    assignOrders_pairwise now _, sortByOrder_sorted_eq (assignOrders_pairwise now _)⟩

/-- Witness for C6: drop `A` onto `C` in `[A, B, C]` at clock reading 100; the
task at position 1 of the result is `A` re-keyed to 101 = 100 + 1. -/
theorem reorder_fresh_orders_w :
    (onDrop [⟨"A", "alpha", false, 7⟩, ⟨"B", "beta", false, 3⟩, ⟨"C", "gamma", true, 3⟩]
        "A" "C" 100).saved = true ∧
    (onDrop [⟨"A", "alpha", false, 7⟩, ⟨"B", "beta", false, 3⟩, ⟨"C", "gamma", true, 3⟩]
        "A" "C" 100).tasks.Pairwise (fun a b => a.order < b.order) ∧
    sortByOrder (onDrop [⟨"A", "alpha", false, 7⟩, ⟨"B", "beta", false, 3⟩,
        ⟨"C", "gamma", true, 3⟩] "A" "C" 100).tasks
      = (onDrop [⟨"A", "alpha", false, 7⟩, ⟨"B", "beta", false, 3⟩,
        ⟨"C", "gamma", true, 3⟩] "A" "C" 100).tasks ∧
    (Task.mk "A" "alpha" false 101).order = 100 + (1 : Nat) := by
  have h := reorder_fresh_orders
    [⟨"A", "alpha", false, 7⟩, ⟨"B", "beta", false, 3⟩, ⟨"C", "gamma", true, 3⟩]
    "A" "C" 100 (by decide) (by decide) ⟨0, by decide⟩ ⟨2, by decide⟩
  exact ⟨h.1, h.2.2.1, h.2.2.2, h.2.1 1 ⟨"A", "alpha", false, 101⟩ (by decide)⟩

/-- Claim C10.  A successful reorder permutes the collection: the length is
unchanged, the multiset of ids is unchanged, and the multiset of
(id, text, completed) triples is unchanged — each task keeps its text and
completed flag, only positions and order keys move. -/
theorem reorder_permutation (tasks : List Task) (draggedId targetId : String) (now : Int)
    (hne : draggedId ≠ "") (hneq : draggedId ≠ targetId)
    (hd : ∃ di, findIndex (fun t => t.id == draggedId) tasks = some di)
    (ht : ∃ ti, findIndex (fun t => t.id == targetId) tasks = some ti) :
    (onDrop tasks draggedId targetId now).tasks.length = tasks.length ∧
    ((onDrop tasks draggedId targetId now).tasks.map Task.id).Perm (tasks.map Task.id) ∧
    ((onDrop tasks draggedId targetId now).tasks.map stripOrder).Perm
      (tasks.map stripOrder) := by
  obtain ⟨di, hdi⟩ := hd
  obtain ⟨ti, hti⟩ := ht
  have hlt := findIndex_lt_length hdi
  rw [onDrop_eq tasks draggedId targetId now hne hneq hdi hti hlt]
  dsimp only
  have hperm : (spliceIn (if di < ti then ti - 1 else ti) (tasks.get ⟨di, hlt⟩)
      (tasks.eraseIdx di)).Perm tasks :=
    (spliceIn_perm _ _ _).trans (get_cons_eraseIdx_perm tasks di hlt)
  refine ⟨?_, ?_, ?_⟩
  · rw [length_assignOrders]
    exact hperm.length_eq
  · rw [assignOrders_map_id]
    exact hperm.map Task.id
  · rw [assignOrders_map_stripOrder]
    exact hperm.map stripOrder

/-- Witness for C10: drop `C` onto `A` in `[A, B, C]` at clock reading 50. -/
theorem reorder_permutation_w :
    (onDrop [⟨"A", "alpha", false, 1⟩, ⟨"B", "beta", true, 2⟩, ⟨"C", "gamma", false, 3⟩]
        "C" "A" 50).tasks.length = 3 ∧
    ((onDrop [⟨"A", "alpha", false, 1⟩, ⟨"B", "beta", true, 2⟩, ⟨"C", "gamma", false, 3⟩]
        "C" "A" 50).tasks.map Task.id).Perm ["A", "B", "C"] ∧
    ((onDrop [⟨"A", "alpha", false, 1⟩, ⟨"B", "beta", true, 2⟩, ⟨"C", "gamma", false, 3⟩]
        "C" "A" 50).tasks.map stripOrder).Perm
      [("A", "alpha", false), ("B", "beta", true), ("C", "gamma", false)] := by
  have h := reorder_permutation
    [⟨"A", "alpha", false, 1⟩, ⟨"B", "beta", true, 2⟩, ⟨"C", "gamma", false, 3⟩]
    "C" "A" 50 (by decide) (by decide) ⟨2, by decide⟩ ⟨0, by decide⟩
  exact ⟨h.1, h.2.1, h.2.2⟩

/-- One serialized task decodes back to its dynamic image (the saved fields
are a string, a string, a boolean and a number — never `undefined` — so the
constructor defaults never fire on a saved snapshot). -/
theorem jsTaskOf_taskToJson (now : Int) (t : Task) :
    jsTaskOf now (taskToJson t) = .ok (taskToJsTask t) := rfl

/-- A serialized collection decodes element by element. -/
theorem jsTasksOf_map_taskToJson :
    ∀ (now : Int) (T : List Task),
      jsTasksOf now (T.map taskToJson) = .ok (T.map taskToJsTask) := by
  intro now T
  induction T with
  | nil => rfl
  | cons t ts ih => simp [jsTasksOf, jsTaskOf_taskToJson, ih]

/-- Claim C3.  Loading after saving returns the collection exactly, whatever
the clock reads during the load: the result is the image of `T` under the
field-preserving embedding `taskToJsTask` (sequence order, ids, texts,
completed flags and order keys all intact), and that embedding is injective,
so no two distinct collections load alike. -/
theorem load_save_roundtrip (now : Int) (T : List Task) :
    loadTasks now (some (.ok (saveTasksJson T))) = T.map taskToJsTask ∧
    (∀ t₁ t₂ : Task, taskToJsTask t₁ = taskToJsTask t₂ → t₁ = t₂) := by
  constructor
  · simp [loadTasks, saveTasksJson, tasksFromJson, jsTasksOf_map_taskToJson now T]
  · intro t₁ t₂ h
    cases t₁
    cases t₂
    simp [taskToJsTask, JsTask.mk.injEq] at h
    obtain ⟨h1, h2, h3, h4⟩ := h
    simp [h1, h2, h3, h4]

/-- Witness for C3 at a concrete two-task collection and clock reading 777,
with the injectivity conjunct instantiated at a concrete task. -/
theorem load_save_roundtrip_w :
    loadTasks 777 (some (.ok (saveTasksJson [⟨"a", "milk", false, 5⟩, ⟨"b", "tea", true, 6⟩])))
      = [⟨.str "a", .str "milk", .bool false, .num 5⟩,
        ⟨.str "b", .str "tea", .bool true, .num 6⟩] ∧
    Task.mk "a" "milk" false 5 = Task.mk "a" "milk" false 5 := by
  have h := load_save_roundtrip 777 [⟨"a", "milk", false, 5⟩, ⟨"b", "tea", true, 6⟩]
  exact ⟨h.1, h.2 ⟨"a", "milk", false, 5⟩ ⟨"a", "milk", false, 5⟩ rfl⟩

/-- Claim C8, counterexample.  The persisted string `"[1,2]"` parses as the
JSON array `[1, 2]`, which is not a valid task snapshot; yet `loadTasks` does
not yield the empty collection — the unvalidated constructor call builds two
tasks with `undefined` id and text, while the constructor defaults fill in
`completed = false` and `order =` the clock reading (here 1000). -/
theorem load_invalid_snapshot_cex :
    loadTasks 1000 (some (.ok (.arr [.num 1, .num 2]))) ≠ [] := by
  intro h
  have h2 : loadTasks 1000 (some (.ok (.arr [.num 1, .num 2])))
      = [⟨.undefined, .undefined, .bool false, .num 1000⟩,
        ⟨.undefined, .undefined, .bool false, .num 1000⟩] := rfl
  rw [h2] at h
  exact List.cons_ne_nil _ _ h

/-- `getProp` only throws on `null` and `undefined`. -/
theorem getProp_ok (v : JsVal) (h1 : v ≠ JsVal.null) (h2 : v ≠ JsVal.undefined) (k : String) :
    ∃ w, getProp v k = .ok w := by
  cases v with
  | undefined => exact absurd rfl h2
  | null => exact absurd rfl h1
  | obj fields => exact ⟨_, rfl⟩
  | bool b => exact ⟨_, rfl⟩
  | num n => exact ⟨_, rfl⟩
  | str s => exact ⟨_, rfl⟩
  | arr l => exact ⟨_, rfl⟩

/-- The constructor call throws only on `null` / `undefined` elements. -/
theorem jsTaskOf_ok_of_safe (now : Int) (e : JsVal)
    (h1 : e ≠ JsVal.null) (h2 : e ≠ JsVal.undefined) :
    ∃ t, jsTaskOf now e = .ok t := by
  obtain ⟨i, hi⟩ := getProp_ok e h1 h2 "id"
  obtain ⟨x, hx⟩ := getProp_ok e h1 h2 "text"
  obtain ⟨c, hc⟩ := getProp_ok e h1 h2 "completed"
  obtain ⟨o, ho⟩ := getProp_ok e h1 h2 "order"
  simp only [jsTaskOf, hi, hx, hc, ho]
  exact ⟨_, rfl⟩

/-- A `null` element anywhere makes the whole `map` throw. -/
theorem jsTasksOf_error_of_null :
    ∀ (now : Int) (elems : List JsVal),
      JsVal.null ∈ elems → jsTasksOf now elems = .error () := by
  intro now elems
  induction elems with
  | nil => intro h; simp at h
  | cons e es ih =>
    intro h
    rcases List.mem_cons.mp h with rfl | hmem
    · rfl
    · rw [jsTasksOf, ih hmem]
      cases jsTaskOf now e <;> rfl

/-- Without `null` / `undefined` elements the `map` yields one task per
element. -/
theorem jsTasksOf_length :
    ∀ (now : Int) (elems : List JsVal),
      (∀ e ∈ elems, e ≠ JsVal.null ∧ e ≠ JsVal.undefined) →
      ∃ ts, jsTasksOf now elems = .ok ts ∧ ts.length = elems.length := by
  intro now elems
  induction elems with
  | nil => intro _; exact ⟨[], rfl, rfl⟩
  | cons e es ih =>
    intro h
    obtain ⟨he1, he2⟩ := h e (List.mem_cons_self e es)
    obtain ⟨t, ht⟩ := jsTaskOf_ok_of_safe now e he1 he2
    obtain ⟨ts, hts, hlen⟩ := ih fun x hx => h x (List.mem_cons_of_mem e hx)
    exact ⟨t :: ts, by rw [jsTasksOf, ht, hts], by simp [hlen]⟩

/-- Claim C8, amended.  `loadTasks` yields the empty collection on missing
data, on data whose JSON parsing threw, on parsed values that are not arrays
(calling `.map` throws, and the catch resets), and on arrays containing
`null` (property access throws); but an array of other non-task values is NOT
rejected — it yields one task per element, with `undefined` standing in for
the missing `id` and `text` properties and the `Task` constructor defaults
filling the rest: `completed = false` and `order =` the current clock reading
(shown concretely on the `[1, 2]` array).  No error ever propagates:
`loadTasks` is a total function into collections. -/
theorem load_failsoft_amended (now : Int) :
    loadTasks now none = [] ∧
    loadTasks now (some (.error ())) = [] ∧
    (∀ v : JsVal, (∀ l, v ≠ .arr l) → loadTasks now (some (.ok v)) = []) ∧
    (∀ elems : List JsVal, JsVal.null ∈ elems →
      loadTasks now (some (.ok (.arr elems))) = []) ∧
    (∀ elems : List JsVal, (∀ e ∈ elems, e ≠ JsVal.null ∧ e ≠ JsVal.undefined) →
      (loadTasks now (some (.ok (.arr elems)))).length = elems.length) ∧
    loadTasks now (some (.ok (.arr [.num 1, .num 2])))
      = [⟨.undefined, .undefined, .bool false, .num now⟩,
        ⟨.undefined, .undefined, .bool false, .num now⟩] := by
  refine ⟨rfl, rfl, ?_, ?_, ?_, rfl⟩
  · intro v hv
    cases v with
    | arr l => exact absurd rfl (hv l)
    | undefined => rfl
    | null => rfl
    | bool b => rfl
    | num n => rfl
    | str s => rfl
    | obj fields => rfl
  · intro elems h
    simp [loadTasks, tasksFromJson, jsTasksOf_error_of_null now elems h]
  · intro elems h
    obtain ⟨ts, hts, hlen⟩ := jsTasksOf_length now elems h
    simp [loadTasks, tasksFromJson, hts, hlen]

/-- Witness for the amended C8 at clock reading 1000: a non-array JSON value,
an array containing `null`, and the two-number array from the counterexample
with its defaulted fields spelled out. -/
theorem load_failsoft_amended_w :
    loadTasks 1000 (some (.ok (.num 3))) = [] ∧
    loadTasks 1000 (some (.ok (.arr [.num 1, .null]))) = [] ∧
    (loadTasks 1000 (some (.ok (.arr [.num 1, .num 2])))).length = 2 ∧
    loadTasks 1000 (some (.ok (.arr [.num 1, .num 2])))
      = [⟨.undefined, .undefined, .bool false, .num 1000⟩,
        ⟨.undefined, .undefined, .bool false, .num 1000⟩] := by
  have h := load_failsoft_amended 1000
  refine ⟨h.2.2.1 (.num 3) ?_, h.2.2.2.1 [.num 1, .null] ?_,
    h.2.2.2.2.1 [.num 1, .num 2] ?_, h.2.2.2.2.2⟩
  · intro l hl
    cases hl
  · simp
  · intro e he
    rcases List.mem_cons.mp he with rfl | he2
    · constructor <;> intro hc <;> cases hc
    · rcases List.mem_cons.mp he2 with rfl | he3
      · constructor <;> intro hc <;> cases hc
      · simp at he3

end Todo
